import Mathlib

/-!
Verification of the bigcsv streaming CSV profiler.

This file gives a shallow embedding of the three pipelines of the repository:

* `read.py` — the sequential aggregator (`read` over a tokenized row stream);
* `multiread.py` — the parallel aggregator (`parse_line`, the worker `read`
  loop, `collate`, `read_stream`);
* `multisplit.py` — the column splitter (`make_batches`, `populate_queues`,
  `writer_thread`).

Python data is modelled as follows: a `collections.Counter` of row widths is a
`Multiset ℕ` (an entry is only ever created by incrementing, so every stored
count is positive and the multiset view is exact); Python lists are Lean
lists; `sys.maxint` is `2 ^ 63 - 1`; true division (`from __future__ import
division`) is exact division in `ℚ`; a computation that raises
(`ValueError` from `min([])` / unpacking `zip(*[])`, `ZeroDivisionError`,
`StopIteration` from a missing header) returns `none`.
-/

namespace Bigcsv

/-- Python `str.rstrip('\n')` on the character list of a line: drop every
trailing newline character. -/
def rstripNl (cs : List Char) : List Char :=
  (cs.reverse.dropWhile (fun c => c = '\n')).reverse

/-- Python `str.split(delim)` for a one-character separator: the list of
fields between occurrences of `delim`.  On the empty string it returns one
empty field, exactly as in Python. -/
def splitOnChar (delim : Char) : List Char → List (List Char)
  | [] => [[]]
  | c :: rest =>
    let r := splitOnChar delim rest
    if c = delim then [] :: r
    else
      match r with
      | [] => [[c]]
      | f :: fs => (c :: f) :: fs

/-- Tokenize one raw line: strip the trailing newline, then split on the
delimiter (`line.rstrip('\n').split(delimiter)`). -/
def tokenize (delim : Char) (line : String) : List String :=
  (splitOnChar delim (rstripNl line.data)).map (fun cs => String.mk cs)

/-- `multiread.parse_line`: tokenize with the fixed delimiter `|`. -/
def parse_line (line : String) : List String :=
  tokenize '|' line

/-- `read.dumb_reader`: tokenize every line of the stream. -/
def dumb_reader (delim : Char) (lines : List String) : List (List String) :=
  lines.map (tokenize delim)

/-- `sys.maxint` on a 64-bit CPython 2 build. -/
def maxint : ℕ := 2 ^ 63 - 1

/-- The per-worker statistics bundle: the row-width histogram together with
the per-column `fill_count`, `max_len`, `min_len`, `sum_len` lists.  This is
the tuple a `multiread` worker puts on the result queue, and also the mutable
state of `read.read`. -/
structure WorkerResult where
  counter : Multiset ℕ
  fill_count : List ℕ
  max_len : List ℕ
  min_len : List ℕ
  sum_len : List ℕ

instance : DecidableEq WorkerResult := fun a b =>
  decidable_of_iff
    (a.counter = b.counter ∧ a.fill_count = b.fill_count ∧
      a.max_len = b.max_len ∧ a.min_len = b.min_len ∧ a.sum_len = b.sum_len)
    (by cases a; cases b; simp)

instance : DecidableEq (Option WorkerResult) := fun a b =>
  match a, b with
  | none, none => isTrue rfl
  | none, some _ => isFalse (by simp)
  | some _, none => isFalse (by simp)
  | some x, some y => decidable_of_iff (x = y) (by simp)

/-- The final aggregate: the dictionary built by `multiread.collate`, which is
also what `read.read` prints (histogram, fill counts, extrema and the derived
average lengths). -/
structure AggregateResult where
  counter : Multiset ℕ
  fill_count : List ℕ
  max_len : List ℕ
  min_len : List ℕ
  avg_len : List ℚ

instance : DecidableEq AggregateResult := fun a b =>
  decidable_of_iff
    (a.counter = b.counter ∧ a.fill_count = b.fill_count ∧
      a.max_len = b.max_len ∧ a.min_len = b.min_len ∧ a.avg_len = b.avg_len)
    (by cases a; cases b; simp)

instance : DecidableEq (Option AggregateResult) := fun a b =>
  match a, b with
  | none, none => isTrue rfl
  | none, some _ => isFalse (by simp)
  | some _, none => isFalse (by simp)
  | some x, some y => decidable_of_iff (x = y) (by simp)

/-- The initial statistics: empty histogram, `fill_count`/`max_len`/`sum_len`
all zero and `min_len` seeded with `sys.maxint`, one slot per column.  Both
`read.read` and `multiread.collate` start from exactly this state. -/
def initStats (C : ℕ) : WorkerResult :=
  ⟨0, List.replicate C 0, List.replicate C 0, List.replicate C maxint,
    List.replicate C 0⟩

/-- One iteration of the loop of `read.read`: count the row's width; if the
width differs from the header width the row is skipped, otherwise every
column statistic is updated with the length of that column's value. -/
def readStep (C : ℕ) (s : WorkerResult) (row : List String) : WorkerResult :=
  let counter := row.length ::ₘ s.counter
  if row.length ≠ C then { s with counter := counter }
  else
    { counter := counter
      fill_count := List.zipWith
        (fun f v => if 0 < String.length v then f + 1 else f) s.fill_count row
      max_len := List.zipWith (fun m v => max m (String.length v)) s.max_len row
      min_len := List.zipWith (fun m v => min m (String.length v)) s.min_len row
      sum_len := List.zipWith (fun t v => t + String.length v) s.sum_len row }

/-- The whole loop of `read.read` over the data rows. -/
def readFold (C : ℕ) (rows : List (List String)) : WorkerResult :=
  rows.foldl (readStep C) (initStats C)

/-- `read.read`: consume the header, fold the remaining rows, then derive
`avg_len = [the_sum / num_rows for the_sum in sum_len]` with
`num_rows = sum(counter.values())`.  A missing header (`next` on an empty
reader) or a division by zero raises, which the model reports as `none`. -/
def readAggregate (rows : List (List String)) : Option AggregateResult :=
  match rows with
  | [] => none
  | header :: rest =>
    if Multiset.card (readFold header.length rest).counter = 0 ∧
        header.length ≠ 0 then none
    else
      some ⟨(readFold header.length rest).counter,
        (readFold header.length rest).fill_count,
        (readFold header.length rest).max_len,
        (readFold header.length rest).min_len,
        (readFold header.length rest).sum_len.map
          (fun t : ℕ => (t : ℚ) / (Multiset.card (readFold header.length rest).counter : ℚ))⟩

/-- One iteration of the pull loop of `multiread.read`: parse the line, count
its width, and when the width matches the header width append each column
value's length to that column's length list. -/
def workerStep (C : ℕ) (acc : Multiset ℕ × List (List ℕ)) (line : String) :
    Multiset ℕ × List (List ℕ) :=
  let row := parse_line line
  let counter := row.length ::ₘ acc.1
  if row.length ≠ C then (counter, acc.2)
  else (counter, List.zipWith (fun l v => l ++ [String.length v]) acc.2 row)

/-- The pull loop of `multiread.read` over the lines a worker receives before
its sentinel. -/
def workerFold (header : List String) (lines : List String) :
    Multiset ℕ × List (List ℕ) :=
  lines.foldl (workerStep header.length) (0, header.map (fun _ => []))

/-- Python `min(l)` for a nonempty list (first element, folded with `min`).
On `[]` CPython raises; the `0` returned here is never used because every
caller guards the empty case. -/
def pymin : List ℕ → ℕ
  | [] => 0
  | x :: xs => xs.foldl min x

/-- Python `max(l)` for a nonempty list; see `pymin`. -/
def pymax : List ℕ → ℕ
  | [] => 0
  | x :: xs => xs.foldl max x

/-- `multiread.read`, from a worker's line sequence to the tuple it puts on
the result queue.  The finalization
`zip(*[[sum(x > 0 for x in l), min(l), max(l), sum(l)] for l in column_lengths])`
raises a `ValueError` when some column's length list is empty (no row ever
matched the header width) or when the header itself is empty (unpacking
`zip(*[])`); the model returns `none` there. -/
def workerRead (header : List String) (lines : List String) :
    Option WorkerResult :=
  if header.isEmpty ∨ (workerFold header lines).2.any List.isEmpty then none
  else
    some
      { counter := (workerFold header lines).1
        fill_count := (workerFold header lines).2.map
          (fun l => l.countP (fun x => decide (0 < x)))
        max_len := (workerFold header lines).2.map pymax
        min_len := (workerFold header lines).2.map pymin
        sum_len := (workerFold header lines).2.map List.sum }

/-- The body of the fold in `multiread.collate`: histogram entries are added,
`fill_count`/`sum_len` are added per column, `max_len`/`min_len` are merged
with `max`/`min` per column (`for i, _ in enumerate(header)`). -/
def mergeResults (C : ℕ) (acc p : WorkerResult) : WorkerResult :=
  { counter := acc.counter + p.counter
    fill_count := (List.range C).map
      (fun i => acc.fill_count.getD i 0 + p.fill_count.getD i 0)
    max_len := (List.range C).map
      (fun i => max (acc.max_len.getD i 0) (p.max_len.getD i 0))
    min_len := (List.range C).map
      (fun i => min (acc.min_len.getD i 0) (p.min_len.getD i 0))
    sum_len := (List.range C).map
      (fun i => acc.sum_len.getD i 0 + p.sum_len.getD i 0) }

/-- The accumulation loop of `multiread.collate` over the partial results. -/
def collateAcc (header : List String) (results : List WorkerResult) :
    WorkerResult :=
  results.foldl (mergeResults header.length) (initStats header.length)

/-- `multiread.collate`: fold all partial results, then derive
`all_avg = [the_sum / num_rows for the_sum in all_sum]` with
`num_rows = sum(all_counter.values())`.  When `num_rows` is zero and the
header is nonempty Python raises `ZeroDivisionError`; the model returns
`none`. -/
def collate (header : List String) (results : List WorkerResult) :
    Option AggregateResult :=
  if Multiset.card (collateAcc header results).counter = 0 ∧
      header.length ≠ 0 then none
  else
    some ⟨(collateAcc header results).counter,
      (collateAcc header results).fill_count,
      (collateAcc header results).max_len,
      (collateAcc header results).min_len,
      (collateAcc header results).sum_len.map
        (fun t : ℕ => (t : ℚ) / (Multiset.card (collateAcc header results).counter : ℚ))⟩

/-- `Option`-valued `map` over a list, `none` as soon as one element fails:
the aggregate run fails when any worker process died with an exception. -/
def optionMapList (f : α → Option β) : List α → Option (List β)
  | [] => some []
  | x :: xs =>
    match f x, optionMapList f xs with
    | some y, some ys => some (y :: ys)
    | _, _ => none

/-- `multiread.main` with an explicit distribution of the data lines to the
workers: every worker runs `read` over the lines it popped from the shared
queue, and the partial results are collated. -/
def runWorkers (header : List String) (parts : List (List String)) :
    Option AggregateResult :=
  match optionMapList (workerRead header) parts with
  | none => none
  | some ps => collate header ps

/-- `multiread.read_stream`: parse the first line as the header, run a single
worker over the remaining lines (the `FakeQueue` yields them then the
sentinel), and collate that one partial result. -/
def read_stream (lines : List String) : Option AggregateResult :=
  match workerRead (parse_line (lines.headD "")) lines.tail with
  | none => none
  | some p => collate (parse_line (lines.headD "")) [p]

/-- The accumulation step of `multisplit.make_batches`: when the current
batch is full it is emitted and a fresh batch is started with the incoming
row, otherwise the row is appended to the current batch. -/
def make_batches_go (size : ℕ) (batch : List α) : List α → List (List α)
  | [] => if batch.isEmpty then [] else [batch]
  | r :: rest =>
    if batch.length = size then batch :: make_batches_go size [r] rest
    else make_batches_go size (batch ++ [r]) rest

/-- `multisplit.make_batches`: group the rows into batches of `size`, the
final partial batch emitted only when nonempty. -/
def make_batches (size : ℕ) (l : List α) : List (List α) :=
  make_batches_go size [] l

/-- One iteration of the row loop of `multisplit.populate_queues`: a row of
mismatched width is skipped, otherwise each value is appended to its
column's value list. -/
def colStep (header : List String) (columns : List (List String))
    (row : List String) : List (List String) :=
  if header.length ≠ row.length then columns
  else List.zipWith (fun col v => col ++ [v]) columns row

/-- The partition of one batch into per-column value lists
(`columns` in `multisplit.populate_queues`). -/
def batchColumns (header : List String) (batch : List (List String)) :
    List (List String) :=
  batch.foldl (colStep header) (header.map (fun _ => []))

/-- `multisplit.populate_queues`: for each batch, record every row width in
the histogram and put the batch's per-column value lists on the per-column
queues (`for queue, values in zip(queues, columns): queue.put(values)` — one
`put` per column per batch, whether or not `values` is empty).  The result is
the histogram together with, per column, the list of batches enqueued on that
column's queue before its sentinel. -/
def populate_queues (header : List String) (reader : List (List String))
    (size : ℕ) : Multiset ℕ × List (List (List String)) :=
  (make_batches size reader).foldl
    (fun acc batch =>
      (acc.1 + ((batch.map List.length : List ℕ) : Multiset ℕ),
       List.zipWith (fun q col => q ++ [col]) acc.2 (batchColumns header batch)))
    (0, header.map (fun _ => []))

/-- Python `b'\n'.join(lines)`. -/
def joinNl : List String → String
  | [] => ""
  | [s] => s
  | s :: rest => s ++ "\n" ++ joinNl rest

/-- `multisplit.writer_thread`: for every non-sentinel item popped from the
queue, append the batch's values joined by newlines plus one trailing newline
to the output sink.  The argument is the sequence of batches the queue
carries before the sentinel; the result is the sink's final content. -/
def writer_thread (batches : List (List String)) : String :=
  batches.foldl (fun out lines => out ++ joinNl lines ++ "\n") ""

/-- The rows whose width matches the expected column count — the rows that
contribute to column statistics and to column batches. -/
def matchingRows (C : ℕ) (rows : List (List String)) : List (List String) :=
  rows.filter (fun r => r.length = C)

/-- The column-`j` values of the matching-width rows, in input order. -/
def columnValues (C : ℕ) (rows : List (List String)) (j : ℕ) : List String :=
  (matchingRows C rows).map (fun r => r.getD j "")

/-- The lengths of the column-`j` values of the matching-width rows. -/
def mLens (C : ℕ) (rows : List (List String)) (j : ℕ) : List ℕ :=
  (columnValues C rows j).map String.length

/-- A sequence of values laid out one per line (each value followed by a
newline). -/
def linesConcat : List String → String
  | [] => ""
  | v :: rest => v ++ "\n" ++ linesConcat rest

/-- The partial result a `multiread` worker emits for a given slice of the
input lines, in closed form (used to state the worker-count equivalence). -/
def specPartial (header : List String) (lines : List String) : WorkerResult :=
  ⟨↑((lines.map parse_line).map List.length),
   (List.range header.length).map (fun j =>
     (mLens header.length (lines.map parse_line) j).countP
       (fun x => decide (0 < x))),
   (List.range header.length).map (fun j =>
     pymax (mLens header.length (lines.map parse_line) j)),
   (List.range header.length).map (fun j =>
     pymin (mLens header.length (lines.map parse_line) j)),
   (List.range header.length).map (fun j =>
     (mLens header.length (lines.map parse_line) j).sum)⟩

/-- The toy input of the repository's test suite: header `a|b`, then the
rows `1|`, `foobar|baz` and the malformed `x`. -/
def toyLines : List String := ["a|b\n", "1|\n", "foobar|baz\n", "x"]

example : parse_line "a|b\n" = ["a", "b"] := by decide
example : parse_line "1|\n" = ["1", ""] := by decide
example : parse_line "" = [""] := by decide

theorem getD_range_map {α : Type _} (f : ℕ → α) (C j : ℕ) (d : α) (h : j < C) :
    ((List.range C).map f).getD j d = f j := by
  rw [List.getD_eq_getElem?_getD]
  simp [List.getElem?_map, List.getElem?_range h]

theorem map_getD_range {α : Type _} (l : List α) (d : α) :
    (List.range l.length).map (fun j => l.getD j d) = l := by
  apply List.ext_getElem (by simp)
  intro i h1 h2
  simp [List.getD_eq_getElem?_getD, List.getElem?_eq_getElem h2]

theorem getD_zipWith {α β γ : Type _} (f : α → β → γ) (l1 : List α)
    (l2 : List β) (j : ℕ) (d1 : α) (d2 : β) (d : γ)
    (h1 : j < l1.length) (h2 : j < l2.length) :
    (List.zipWith f l1 l2).getD j d = f (l1.getD j d1) (l2.getD j d2) := by
  rw [List.getD_eq_getElem, List.getElem_zipWith]
  · rw [List.getD_eq_getElem _ _ h1, List.getD_eq_getElem _ _ h2]
  · simp [List.length_zipWith]
    omega

theorem mLens_cons_of_match {C : ℕ} {r : List String} (rest : List (List String))
    (j : ℕ) (h : r.length = C) :
    mLens C (r :: rest) j = (r.getD j "").length :: mLens C rest j := by
  simp [mLens, columnValues, matchingRows, h]

theorem mLens_cons_of_ne {C : ℕ} {r : List String} (rest : List (List String))
    (j : ℕ) (h : r.length ≠ C) :
    mLens C (r :: rest) j = mLens C rest j := by
  simp [mLens, columnValues, matchingRows, h]

theorem readFold_spec (C : ℕ) (rows : List (List String)) (s : WorkerResult)
    (h1 : s.fill_count.length = C) (h2 : s.max_len.length = C)
    (h3 : s.min_len.length = C) (h4 : s.sum_len.length = C) :
    rows.foldl (readStep C) s =
      ⟨s.counter + ↑(rows.map List.length),
       (List.range C).map (fun j =>
         (mLens C rows j).foldl (fun a b => if 0 < b then a + 1 else a)
           (s.fill_count.getD j 0)),
       (List.range C).map (fun j => (mLens C rows j).foldl max (s.max_len.getD j 0)),
       (List.range C).map (fun j => (mLens C rows j).foldl min (s.min_len.getD j 0)),
       (List.range C).map (fun j =>
         (mLens C rows j).foldl (fun a b => a + b) (s.sum_len.getD j 0))⟩ := by
  induction rows generalizing s with
  | nil =>
    obtain ⟨c, fc, mx, mn, sm⟩ := s
    simp only [List.foldl_nil, mLens, columnValues, matchingRows, List.filter_nil,
      List.map_nil, Multiset.coe_nil, add_zero, List.foldl_nil] at h1 h2 h3 h4 ⊢
    refine WorkerResult.mk.injEq .. |>.mpr ⟨rfl, ?_, ?_, ?_, ?_⟩ |>.symm
    · rw [← h1]; exact map_getD_range fc 0
    · rw [← h2]; exact map_getD_range mx 0
    · rw [← h3]; exact map_getD_range mn 0
    · rw [← h4]; exact map_getD_range sm 0
  | cons r rest ih =>
    rw [List.foldl_cons]
    by_cases hr : r.length = C
    · have hstep : readStep C s r =
          ⟨r.length ::ₘ s.counter,
           List.zipWith (fun f v => if 0 < String.length v then f + 1 else f) s.fill_count r,
           List.zipWith (fun m v => max m (String.length v)) s.max_len r,
           List.zipWith (fun m v => min m (String.length v)) s.min_len r,
           List.zipWith (fun t v => t + String.length v) s.sum_len r⟩ := by
        simp [readStep, hr]
      rw [hstep, ih _ (by simp [List.length_zipWith, h1, hr])
        (by simp [List.length_zipWith, h2, hr])
        (by simp [List.length_zipWith, h3, hr])
        (by simp [List.length_zipWith, h4, hr])]
      simp only [List.map_cons]
      refine WorkerResult.mk.injEq .. |>.mpr ⟨?_, ?_, ?_, ?_, ?_⟩
      · rw [← Multiset.cons_coe, Multiset.add_cons, Multiset.cons_add]
      all_goals
        refine List.map_congr_left (fun j hj => ?_)
        rw [List.mem_range] at hj
        rw [mLens_cons_of_match rest j hr, List.foldl_cons,
          getD_zipWith _ _ _ _ 0 "" _ (by omega) (by omega)]
    · have hstep : readStep C s r = { s with counter := r.length ::ₘ s.counter } := by
        simp [readStep, hr]
      rw [hstep, ih { s with counter := r.length ::ₘ s.counter } h1 h2 h3 h4]
      simp only [List.map_cons]
      refine WorkerResult.mk.injEq .. |>.mpr ⟨?_, ?_, ?_, ?_, ?_⟩
      · rw [← Multiset.cons_coe, Multiset.add_cons, Multiset.cons_add]
      all_goals
        refine List.map_congr_left (fun j hj => ?_)
        rw [mLens_cons_of_ne rest j hr]

theorem workerFoldAux (C : ℕ) (lines : List String) (cnt : Multiset ℕ)
    (cl : List (List ℕ)) (hcl : cl.length = C) :
    lines.foldl (workerStep C) (cnt, cl) =
      (cnt + ↑((lines.map parse_line).map List.length),
       (List.range C).map
         (fun j => cl.getD j [] ++ mLens C (lines.map parse_line) j)) := by
  induction lines generalizing cnt cl with
  | nil =>
    simp only [List.foldl_nil, List.map_nil, mLens, columnValues, matchingRows,
      List.filter_nil, Multiset.coe_nil, add_zero, List.append_nil]
    refine Prod.ext rfl ?_
    rw [← hcl]
    exact (map_getD_range cl []).symm
  | cons line rest ih =>
    rw [List.foldl_cons]
    by_cases hr : (parse_line line).length = C
    · have hstep : workerStep C (cnt, cl) line =
          ((parse_line line).length ::ₘ cnt,
           List.zipWith (fun l v => l ++ [String.length v]) cl (parse_line line)) := by
        simp [workerStep, hr]
      rw [hstep, ih _ _ (by simp [List.length_zipWith, hcl, hr])]
      simp only [List.map_cons]
      refine Prod.ext ?_ ?_
      · rw [← Multiset.cons_coe, Multiset.add_cons, Multiset.cons_add]
      · refine List.map_congr_left (fun j hj => ?_)
        rw [List.mem_range] at hj
        rw [mLens_cons_of_match _ j hr,
          getD_zipWith _ _ _ _ [] "" _ (by omega) (by omega),
          List.append_assoc, List.singleton_append]
    · have hstep : workerStep C (cnt, cl) line =
          ((parse_line line).length ::ₘ cnt, cl) := by
        simp [workerStep, hr]
      rw [hstep, ih _ _ hcl]
      simp only [List.map_cons]
      refine Prod.ext ?_ ?_
      · rw [← Multiset.cons_coe, Multiset.add_cons, Multiset.cons_add]
      · refine List.map_congr_left (fun j hj => ?_)
        rw [mLens_cons_of_ne _ j hr]

theorem workerFold_spec (header : List String) (lines : List String) :
    workerFold header lines =
      (↑((lines.map parse_line).map List.length),
       (List.range header.length).map
         (fun j => mLens header.length (lines.map parse_line) j)) := by
  rw [workerFold, workerFoldAux header.length lines 0 _ (by simp)]
  refine Prod.ext (by simp) ?_
  refine List.map_congr_left (fun j hj => ?_)
  rw [List.mem_range] at hj
  rw [show (header.map (fun _ => ([] : List ℕ))).getD j [] = [] from ?_,
    List.nil_append]
  rw [List.getD_eq_getElem _ _ (by simpa using hj), List.getElem_map]

theorem collateAccAux (C : ℕ) (rs : List WorkerResult) (acc : WorkerResult)
    (h1 : acc.fill_count.length = C) (h2 : acc.max_len.length = C)
    (h3 : acc.min_len.length = C) (h4 : acc.sum_len.length = C) :
    rs.foldl (mergeResults C) acc =
      ⟨acc.counter + (rs.map WorkerResult.counter).sum,
       (List.range C).map (fun j =>
         (rs.map (fun p => p.fill_count.getD j 0)).foldl (fun a b => a + b)
           (acc.fill_count.getD j 0)),
       (List.range C).map (fun j =>
         (rs.map (fun p => p.max_len.getD j 0)).foldl max (acc.max_len.getD j 0)),
       (List.range C).map (fun j =>
         (rs.map (fun p => p.min_len.getD j 0)).foldl min (acc.min_len.getD j 0)),
       (List.range C).map (fun j =>
         (rs.map (fun p => p.sum_len.getD j 0)).foldl (fun a b => a + b)
           (acc.sum_len.getD j 0))⟩ := by
  induction rs generalizing acc with
  | nil =>
    obtain ⟨c, fc, mx, mn, sm⟩ := acc
    simp only [List.foldl_nil, List.map_nil, List.sum_nil, add_zero] at h1 h2 h3 h4 ⊢
    refine WorkerResult.mk.injEq .. |>.mpr ⟨rfl, ?_, ?_, ?_, ?_⟩ |>.symm
    · rw [← h1]; exact map_getD_range fc 0
    · rw [← h2]; exact map_getD_range mx 0
    · rw [← h3]; exact map_getD_range mn 0
    · rw [← h4]; exact map_getD_range sm 0
  | cons p rest ih =>
    rw [List.foldl_cons,
      ih (mergeResults C acc p) (by simp [mergeResults]) (by simp [mergeResults])
        (by simp [mergeResults]) (by simp [mergeResults])]
    simp only [List.map_cons, List.sum_cons, List.foldl_cons]
    refine WorkerResult.mk.injEq .. |>.mpr ⟨?_, ?_, ?_, ?_, ?_⟩
    · show acc.counter + p.counter + _ = _
      rw [add_assoc]
    · refine List.map_congr_left (fun j hj => ?_)
      rw [List.mem_range] at hj
      rw [show (mergeResults C acc p).fill_count.getD j 0 =
        acc.fill_count.getD j 0 + p.fill_count.getD j 0 from getD_range_map _ C j 0 hj]
    · refine List.map_congr_left (fun j hj => ?_)
      rw [List.mem_range] at hj
      rw [show (mergeResults C acc p).max_len.getD j 0 =
        max (acc.max_len.getD j 0) (p.max_len.getD j 0) from getD_range_map _ C j 0 hj]
    · refine List.map_congr_left (fun j hj => ?_)
      rw [List.mem_range] at hj
      rw [show (mergeResults C acc p).min_len.getD j 0 =
        min (acc.min_len.getD j 0) (p.min_len.getD j 0) from getD_range_map _ C j 0 hj]
    · refine List.map_congr_left (fun j hj => ?_)
      rw [List.mem_range] at hj
      rw [show (mergeResults C acc p).sum_len.getD j 0 =
        acc.sum_len.getD j 0 + p.sum_len.getD j 0 from getD_range_map _ C j 0 hj]

theorem columnValues_cons_of_match {C : ℕ} {r : List String}
    (rest : List (List String)) (j : ℕ) (h : r.length = C) :
    columnValues C (r :: rest) j = r.getD j "" :: columnValues C rest j := by
  simp [columnValues, matchingRows, h]

theorem columnValues_cons_of_ne {C : ℕ} {r : List String}
    (rest : List (List String)) (j : ℕ) (h : r.length ≠ C) :
    columnValues C (r :: rest) j = columnValues C rest j := by
  simp [columnValues, matchingRows, h]

theorem columnValues_append (C : ℕ) (l1 l2 : List (List String)) (j : ℕ) :
    columnValues C (l1 ++ l2) j = columnValues C l1 j ++ columnValues C l2 j := by
  simp [columnValues, matchingRows, List.filter_append]

theorem make_batches_go_flatten {α : Type _} (size : ℕ) (l : List α)
    (batch : List α) :
    (make_batches_go size batch l).flatten = batch ++ l := by
  induction l generalizing batch with
  | nil =>
    by_cases h : batch.isEmpty
    · simp [make_batches_go, h, List.isEmpty_iff.mp h]
    · simp [make_batches_go, h]
  | cons r rest ih =>
    rw [make_batches_go]
    by_cases h : batch.length = size
    · simp [h, ih]
    · simp [h, ih]

theorem make_batches_flatten {α : Type _} (size : ℕ) (l : List α) :
    (make_batches size l).flatten = l := by
  rw [make_batches, make_batches_go_flatten, List.nil_append]

theorem batchColumnsAux (header : List String) (batch : List (List String))
    (cols : List (List String)) (hcl : cols.length = header.length) :
    batch.foldl (colStep header) cols =
      (List.range header.length).map
        (fun j => cols.getD j [] ++ columnValues header.length batch j) := by
  induction batch generalizing cols with
  | nil =>
    simp only [List.foldl_nil, columnValues, matchingRows, List.filter_nil,
      List.map_nil, List.append_nil]
    rw [← hcl]
    exact (map_getD_range cols []).symm
  | cons r rest ih =>
    rw [List.foldl_cons]
    by_cases hr : r.length = header.length
    · have hstep : colStep header cols r =
          List.zipWith (fun col v => col ++ [v]) cols r := by
        simp [colStep, hr]
      rw [hstep, ih _ (by simp [List.length_zipWith, hcl, hr])]
      refine List.map_congr_left (fun j hj => ?_)
      rw [List.mem_range] at hj
      rw [columnValues_cons_of_match _ j hr,
        getD_zipWith _ _ _ _ [] "" _ (by omega) (by omega),
        List.append_assoc, List.singleton_append]
    · have hstep : colStep header cols r = cols := by
        have hne : header.length ≠ r.length := fun h => hr h.symm
        simp [colStep, hne]
      rw [hstep, ih _ hcl]
      refine List.map_congr_left (fun j hj => ?_)
      rw [columnValues_cons_of_ne _ j hr]

theorem batchColumns_spec (header : List String) (batch : List (List String)) :
    batchColumns header batch =
      (List.range header.length).map
        (fun j => columnValues header.length batch j) := by
  rw [batchColumns, batchColumnsAux header batch _ (by simp)]
  refine List.map_congr_left (fun j hj => ?_)
  rw [List.mem_range] at hj
  rw [show (header.map (fun _ => ([] : List String))).getD j [] = [] from ?_,
    List.nil_append]
  rw [List.getD_eq_getElem _ _ (by simpa using hj), List.getElem_map]

theorem populateAux (header : List String)
    (batches : List (List (List String))) (hist : Multiset ℕ)
    (qs : List (List (List String))) (hqs : qs.length = header.length) :
    batches.foldl
      (fun acc batch =>
        (acc.1 + ((batch.map List.length : List ℕ) : Multiset ℕ),
         List.zipWith (fun q col => q ++ [col]) acc.2 (batchColumns header batch)))
      (hist, qs) =
      (hist + ↑(batches.flatten.map List.length),
       (List.range header.length).map
         (fun j => qs.getD j [] ++
           batches.map (fun b => (batchColumns header b).getD j []))) := by
  induction batches generalizing hist qs with
  | nil =>
    simp only [List.foldl_nil, List.flatten_nil, List.map_nil, Multiset.coe_nil,
      add_zero, List.append_nil]
    refine Prod.ext rfl ?_
    rw [← hqs]
    exact (map_getD_range qs []).symm
  | cons b rest ih =>
    rw [List.foldl_cons,
      ih _ _ (by simp [List.length_zipWith, hqs, batchColumns_spec])]
    refine Prod.ext ?_ ?_
    · show hist + _ + _ = _
      simp [add_assoc]
    · refine List.map_congr_left (fun j hj => ?_)
      rw [List.mem_range] at hj
      rw [List.map_cons,
        getD_zipWith _ _ _ _ [] [] _ (by simpa [hqs] using hj)
          (by rw [batchColumns_spec]; simpa using hj),
        List.append_assoc, List.singleton_append]

theorem populate_queues_spec (header : List String)
    (reader : List (List String)) (size : ℕ) :
    populate_queues header reader size =
      (↑(reader.map List.length),
       (List.range header.length).map
         (fun j => (make_batches size reader).map
           (fun b => (batchColumns header b).getD j []))) := by
  rw [populate_queues, populateAux header _ _ _ (by simp)]
  rw [make_batches_flatten]
  refine Prod.ext (by simp) ?_
  refine List.map_congr_left (fun j hj => ?_)
  rw [List.mem_range] at hj
  rw [show (header.map (fun _ => ([] : List (List String)))).getD j [] = []
      from ?_, List.nil_append]
  rw [List.getD_eq_getElem _ _ (by simpa using hj), List.getElem_map]

theorem count_coe_filter (C : ℕ) (l : List ℕ) :
    Multiset.count C (l : Multiset ℕ) = (l.filter (fun x => x = C)).length := by
  rw [Multiset.coe_count, ← List.countP_eq_length_filter]
  exact List.countP_congr (fun a _ => by simp)

theorem count_widths (C : ℕ) (rows : List (List String)) :
    Multiset.count C (↑(rows.map List.length) : Multiset ℕ) =
      (matchingRows C rows).length := by
  rw [count_coe_filter, matchingRows]
  induction rows with
  | nil => simp
  | cons r rest ih =>
    by_cases h : r.length = C
    · simpa [h] using ih
    · simpa [h] using ih

theorem getD_map {α β : Type _} (f : α → β) (l : List α) (j : ℕ) (d : α)
    (d2 : β) (h : j < l.length) :
    (l.map f).getD j d2 = f (l.getD j d) := by
  rw [List.getD_eq_getElem _ _ (by simpa using h), List.getElem_map,
    List.getD_eq_getElem _ _ h]

theorem splitOnChar_ne_nil (delim : Char) (cs : List Char) :
    splitOnChar delim cs ≠ [] := by
  cases cs with
  | nil => simp [splitOnChar]
  | cons c rest =>
    rw [splitOnChar]
    by_cases h : c = delim
    · simp [h]
    · simp only [h, if_false]
      cases splitOnChar delim rest <;> simp

theorem parse_line_length_pos (line : String) : 0 < (parse_line line).length := by
  rw [parse_line, tokenize, List.length_map]
  have := splitOnChar_ne_nil '|' (rstripNl line.data)
  cases h : splitOnChar '|' (rstripNl line.data) with
  | nil => exact absurd h this
  | cons a l => simp

theorem foldl_min_eq (l : List ℕ) :
    ∀ a, l.foldl min a = if l = [] then a else min a (pymin l) := by
  induction l with
  | nil => intro a; simp
  | cons x xs ih =>
    intro a
    rw [List.foldl_cons, ih (min a x), pymin, ih x]
    by_cases h : xs = []
    · simp [h]
    · simp only [h, if_false, List.cons_ne_nil, min_assoc]

theorem foldl_max_eq (l : List ℕ) :
    ∀ a, l.foldl max a = if l = [] then a else max a (pymax l) := by
  induction l with
  | nil => intro a; simp
  | cons x xs ih =>
    intro a
    rw [List.foldl_cons, ih (max a x), pymax, ih x]
    by_cases h : xs = []
    · simp [h]
    · simp only [h, if_false, List.cons_ne_nil, max_assoc]

theorem foldl_add_eq (l : List ℕ) :
    ∀ a, l.foldl (fun x y => x + y) a = a + l.sum := by
  induction l with
  | nil => intro a; simp
  | cons x xs ih => intro a; rw [List.foldl_cons, ih (a + x)]; simp [add_assoc]

theorem foldl_min_flatten (ls : List (List ℕ)) (h : ∀ l ∈ ls, l ≠ []) :
    ∀ a, (ls.map pymin).foldl min a = ls.flatten.foldl min a := by
  induction ls with
  | nil => intro a; simp
  | cons l rest ih =>
    intro a
    rw [List.map_cons, List.foldl_cons, List.flatten_cons, List.foldl_append,
      ih (fun x hx => h x (List.mem_cons_of_mem l hx)),
      foldl_min_eq l a, if_neg (h l (List.mem_cons_self l rest))]

theorem foldl_max_flatten (ls : List (List ℕ)) (h : ∀ l ∈ ls, l ≠ []) :
    ∀ a, (ls.map pymax).foldl max a = ls.flatten.foldl max a := by
  induction ls with
  | nil => intro a; simp
  | cons l rest ih =>
    intro a
    rw [List.map_cons, List.foldl_cons, List.flatten_cons, List.foldl_append,
      ih (fun x hx => h x (List.mem_cons_of_mem l hx)),
      foldl_max_eq l a, if_neg (h l (List.mem_cons_self l rest))]

theorem foldl_min_perm {l1 l2 : List ℕ} (p : l1.Perm l2) (a : ℕ) :
    l1.foldl min a = l2.foldl min a :=
  p.foldl_eq' (fun x _ y _ z => by rw [min_assoc, min_comm x y, ← min_assoc]) a

theorem foldl_max_perm {l1 l2 : List ℕ} (p : l1.Perm l2) (a : ℕ) :
    l1.foldl max a = l2.foldl max a :=
  p.foldl_eq' (fun x _ y _ z => by rw [max_assoc, max_comm x y, ← max_assoc]) a

theorem countP_flatten (p : ℕ → Bool) (ls : List (List ℕ)) :
    ls.flatten.countP p = (ls.map (fun l => l.countP p)).sum := by
  induction ls with
  | nil => simp
  | cons l rest ih => simp [List.countP_append, ih]

theorem mLens_flatten (C : ℕ) (ls : List (List (List String))) (j : ℕ) :
    mLens C ls.flatten j = (ls.map (fun b => mLens C b j)).flatten := by
  induction ls with
  | nil => simp [mLens, columnValues, matchingRows]
  | cons b rest ih =>
    simp only [List.flatten_cons, mLens, columnValues, matchingRows,
      List.filter_append, List.map_append, List.map_cons] at ih ⊢
    rw [ih]

theorem mLens_length (C : ℕ) (rows : List (List String)) (j : ℕ) :
    (mLens C rows j).length = (matchingRows C rows).length := by
  simp [mLens, columnValues]

theorem mLens_perm {rows1 rows2 : List (List String)} (C : ℕ) (j : ℕ)
    (p : rows1.Perm rows2) : (mLens C rows1 j).Perm (mLens C rows2 j) :=
  ((p.filter _).map _).map _

theorem matchingRows_map_parse_ne_nil {header : List String}
    {part : List String} (hm : ∃ line ∈ part, (parse_line line).length = header.length) :
    matchingRows header.length (part.map parse_line) ≠ [] := by
  obtain ⟨line, hmem, hlen⟩ := hm
  have : parse_line line ∈ matchingRows header.length (part.map parse_line) := by
    rw [matchingRows, List.mem_filter]
    exact ⟨List.mem_map_of_mem parse_line hmem, by simpa using hlen⟩
  exact List.ne_nil_of_mem this

theorem header_ne_nil_of_matching {header : List String} {part : List String}
    (hm : ∃ line ∈ part, (parse_line line).length = header.length) :
    header ≠ [] := by
  obtain ⟨line, _, hlen⟩ := hm
  intro h
  subst h
  exact absurd (hlen ▸ parse_line_length_pos line) (by simp)

theorem workerRead_spec (header : List String) (lines : List String)
    (hne : matchingRows header.length (lines.map parse_line) ≠ [])
    (hh : header ≠ []) :
    workerRead header lines = some
      ⟨↑((lines.map parse_line).map List.length),
       (List.range header.length).map (fun j =>
         (mLens header.length (lines.map parse_line) j).countP
           (fun x => decide (0 < x))),
       (List.range header.length).map (fun j =>
         pymax (mLens header.length (lines.map parse_line) j)),
       (List.range header.length).map (fun j =>
         pymin (mLens header.length (lines.map parse_line) j)),
       (List.range header.length).map (fun j =>
         (mLens header.length (lines.map parse_line) j).sum)⟩ := by
  have hempty : (workerFold header lines).2.any List.isEmpty = false := by
    rw [workerFold_spec]
    rw [List.any_eq_false]
    intro l hl
    rw [List.mem_map] at hl
    obtain ⟨j, _, rfl⟩ := hl
    have : (mLens header.length (lines.map parse_line) j).length ≠ 0 := by
      rw [mLens_length]
      simpa [List.length_eq_zero] using hne
    simpa [List.isEmpty_iff, List.length_eq_zero] using this
  rw [workerRead, if_neg (by simp [hempty, List.isEmpty_iff, hh]), workerFold_spec]
  simp only [List.map_map]
  rfl

theorem optionMapList_eq_some {α β : Type _} (f : α → Option β) (g : α → β)
    (l : List α) (h : ∀ x ∈ l, f x = some (g x)) :
    optionMapList f l = some (l.map g) := by
  induction l with
  | nil => simp [optionMapList]
  | cons x xs ih =>
    rw [optionMapList, h x (List.mem_cons_self x xs),
      ih (fun y hy => h y (List.mem_cons_of_mem x hy)), List.map_cons]

theorem collate_congr (header : List String) (rs1 rs2 : List WorkerResult)
    (h : collateAcc header rs1 = collateAcc header rs2) :
    collate header rs1 = collate header rs2 := by
  unfold collate
  rw [h]

theorem queue_contents (header : List String) (rows : List (List String))
    (size j : ℕ) (hj : j < header.length) :
    (populate_queues header rows size).2.getD j [] =
      (make_batches size rows).map (fun b => columnValues header.length b j) := by
  rw [populate_queues_spec, getD_range_map _ _ _ _ hj]
  refine List.map_congr_left (fun b _ => ?_)
  rw [batchColumns_spec, getD_range_map _ _ _ _ hj]

theorem columnValues_flatten (C : ℕ) (ls : List (List (List String))) (j : ℕ) :
    columnValues C ls.flatten j = (ls.map (fun b => columnValues C b j)).flatten := by
  induction ls with
  | nil => simp [columnValues, matchingRows]
  | cons b rest ih =>
    simp only [List.flatten_cons, columnValues_append, List.map_cons,
      List.flatten_cons, ih]

theorem queue_flatten (header : List String) (rows : List (List String))
    (size j : ℕ) (hj : j < header.length) :
    ((populate_queues header rows size).2.getD j []).flatten =
      columnValues header.length rows j := by
  rw [queue_contents header rows size j hj, ← columnValues_flatten,
    make_batches_flatten]

theorem joinNl_append_nl {b : List String} (h : b ≠ []) :
    joinNl b ++ "\n" = linesConcat b := by
  induction b with
  | nil => exact absurd rfl h
  | cons v rest ih =>
    cases rest with
    | nil => simp [joinNl, linesConcat, String.append_assoc]
    | cons w ws =>
      rw [show joinNl (v :: w :: ws) = v ++ "\n" ++ joinNl (w :: ws) from rfl,
        linesConcat, ← ih (by simp), String.append_assoc, String.append_assoc]

theorem writer_thread_shift (bs : List (List String)) :
    ∀ a : String,
      bs.foldl (fun out lines => out ++ joinNl lines ++ "\n") a =
        a ++ writer_thread bs := by
  induction bs with
  | nil => intro a; simp [writer_thread]
  | cons b rest ih =>
    intro a
    rw [List.foldl_cons, ih (a ++ joinNl b ++ "\n")]
    conv_rhs => rw [writer_thread, List.foldl_cons]
    rw [ih ("" ++ joinNl b ++ "\n")]
    simp [String.append_assoc]

theorem writer_thread_cons (b : List String) (bs : List (List String)) :
    writer_thread (b :: bs) = joinNl b ++ "\n" ++ writer_thread bs := by
  rw [writer_thread, List.foldl_cons, writer_thread_shift]
  simp [String.append_assoc]

theorem linesConcat_append (v1 v2 : List String) :
    linesConcat (v1 ++ v2) = linesConcat v1 ++ linesConcat v2 := by
  induction v1 with
  | nil => simp [linesConcat]
  | cons v rest ih =>
    rw [List.cons_append, linesConcat, linesConcat, ih]
    simp [String.append_assoc]

theorem writer_thread_values (bs : List (List String))
    (h : ∀ b ∈ bs, b ≠ []) :
    writer_thread bs = linesConcat bs.flatten := by
  induction bs with
  | nil => rfl
  | cons b rest ih =>
    rw [writer_thread_cons, joinNl_append_nl (h b (List.mem_cons_self b rest)),
      List.flatten_cons, linesConcat_append,
      ih (fun x hx => h x (List.mem_cons_of_mem b hx))]

theorem writer_thread_append_batch (batches : List (List String))
    (b : List String) :
    writer_thread (batches ++ [b]) =
      writer_thread batches ++ joinNl b ++ "\n" := by
  rw [writer_thread, List.foldl_append, List.foldl_cons, List.foldl_nil]
  rfl

/-! Evaluation bridges: rewrite the `Option`-valued pipeline entry points
once the underlying fold has been computed. -/

theorem read_stream_eq (lines : List String) (p : WorkerResult)
    (h : workerRead (parse_line (lines.headD "")) lines.tail = some p) :
    read_stream lines = collate (parse_line (lines.headD "")) [p] := by
  unfold read_stream
  rw [h]

theorem collate_eval (header : List String) (rs : List WorkerResult)
    (p : WorkerResult) (hacc : collateAcc header rs = p)
    (hcard : Multiset.card p.counter ≠ 0) :
    collate header rs =
      some ⟨p.counter, p.fill_count, p.max_len, p.min_len,
        p.sum_len.map (fun t : ℕ => (t : ℚ) / (Multiset.card p.counter : ℚ))⟩ := by
  unfold collate
  rw [hacc]
  simp [hcard]

theorem readAggregate_eval (header : List String) (rest : List (List String))
    (p : WorkerResult) (hfold : readFold header.length rest = p)
    (hcard : Multiset.card p.counter ≠ 0) :
    readAggregate (header :: rest) =
      some ⟨p.counter, p.fill_count, p.max_len, p.min_len,
        p.sum_len.map (fun t : ℕ => (t : ℚ) / (Multiset.card p.counter : ℚ))⟩ := by
  show (if Multiset.card (readFold header.length rest).counter = 0 ∧
      header.length ≠ 0 then none else _) = _
  rw [hfold]
  simp [hcard]

theorem runWorkers_one (header : List String) (lines : List String)
    (p : WorkerResult) (h : workerRead header lines = some p) :
    runWorkers header [lines] = collate header [p] := by
  simp [runWorkers, optionMapList, h]

theorem toy_read_stream_eval :
    read_stream toyLines =
      some ⟨{2, 2, 1}, [2, 1], [6, 3], [1, 0], [7 / 3, 1]⟩ := by
  rw [read_stream_eq toyLines ⟨{2, 2, 1}, [2, 1], [6, 3], [1, 0], [7, 3]⟩
      (by decide),
    collate_eval _ _ ⟨{2, 2, 1}, [2, 1], [6, 3], [1, 0], [7, 3]⟩ (by decide)
      (by decide)]
  norm_num

/-- C2: on the input with header `a|b` and data lines `1|`, `foobar|baz`, `x`,
both the sequential aggregator (`read.read` over `dumb_reader`) and the
single-worker parallel aggregator (`multiread.read_stream`) return the
histogram `{2: 2, 1: 1}`, column 0 statistics `fill_count = 2`,
`min_len = 1`, `max_len = 6`, `avg_len = 7/3`, and column 1 statistics
`fill_count = 1`, `min_len = 0`, `max_len = 3`, `avg_len = 1`. -/
theorem C2_toy_example :
    read_stream toyLines =
      some ⟨{2, 2, 1}, [2, 1], [6, 3], [1, 0], [7 / 3, 1]⟩ ∧
    readAggregate (dumb_reader '|' toyLines) =
      some ⟨{2, 2, 1}, [2, 1], [6, 3], [1, 0], [7 / 3, 1]⟩ := by
  constructor
  · exact toy_read_stream_eval
  · have h : dumb_reader '|' toyLines =
        ["a", "b"] :: [["1", ""], ["foobar", "baz"], ["x"]] := by decide
    rw [h, readAggregate_eval ["a", "b"] [["1", ""], ["foobar", "baz"], ["x"]]
        ⟨{2, 2, 1}, [2, 1], [6, 3], [1, 0], [7, 3]⟩ (by decide) (by decide)]
    norm_num

/-- C5 (the code at the failing input): on the empty input — header `a|b`
followed by no data lines, i.e. a worker that receives only the sentinel —
the `multiread` worker raises `ValueError` (`min` of an empty sequence) and
the sequential `read.read` raises `ZeroDivisionError` computing `avg_len`;
no well-formed zero-count result and no distinct "no data" average value is
ever produced. -/
theorem C5_empty_input_crashes :
    workerRead (parse_line "a|b\n") [] = none ∧
    readAggregate [parse_line "a|b\n"] = none ∧
    read_stream ["a|b\n"] = none := by
  decide

/-- C1 (counterexample): on the toy input the derived average length of
column 0 is `7/3` — the sum of lengths `7` divided by the **total** row count
`3` — while the claim's formula `sum_len[0] / histogram[C]` gives `7/2`
(the histogram entry at the header width `C = 2` is `2`), and `7/3 ≠ 7/2`. -/
theorem C1_counterexample :
    (read_stream toyLines).map (fun a => a.avg_len.getD 0 0) =
      some (7 / 3 : ℚ) ∧
    (workerRead (parse_line "a|b\n") toyLines.tail).map WorkerResult.sum_len =
      some [7, 3] ∧
    (read_stream toyLines).map (fun a => Multiset.count 2 a.counter) =
      some 2 ∧
    (7 / 3 : ℚ) ≠ 7 / 2 := by
  have h : read_stream toyLines =
      some ⟨{2, 2, 1}, [2, 1], [6, 3], [1, 0], [7 / 3, 1]⟩ := toy_read_stream_eval
  refine ⟨?_, by decide, ?_, by norm_num⟩
  · rw [h]; norm_num
  · rw [h]; simp

/-- C4 (counterexample): with header `a|b` and the single data line `1|2`,
running two workers where the second worker receives no lines (it pops only
the sentinel) fails — that worker's finalization raises `ValueError` on
`min([])` — while the single-worker run returns an aggregate, so the two
runs do not yield the same `AggregateResult`. -/
theorem C4_counterexample :
    runWorkers (parse_line "a|b\n") [["1|2\n"], []] = none ∧
    runWorkers (parse_line "a|b\n") [["1|2\n"]] =
      some ⟨{2}, [1, 1], [1, 1], [1, 1], [1, 1]⟩ := by
  constructor
  · decide
  · rw [runWorkers_one _ _ ⟨{2}, [1, 1], [1, 1], [1, 1], [1, 1]⟩ (by decide),
      collate_eval _ _ ⟨{2}, [1, 1], [1, 1], [1, 1], [1, 1]⟩ (by decide)
        (by decide)]
    norm_num

/-- C9 (counterexample): with header `a|b` and the single (malformed) data
row `x`, the partition of the only batch yields an empty value list for
column 0, yet `populate_queues` still enqueues that empty column-batch: the
contents of column 0's queue before the sentinel are `[[]]`, not `[]`. -/
theorem C9_counterexample :
    (populate_queues ["a", "b"] [["x"]] 10000).2.getD 0 [] = [[]] ∧
    ([] : List String) ∈ (populate_queues ["a", "b"] [["x"]] 10000).2.getD 0 [] := by
  decide

/-- C7 (counterexample): with header `a|b` and the single (malformed) data
row `x`, the column-0 batches concatenate to the empty value sequence (first
half of the claim, which holds), but the writer's sink content is a single
bare newline `"\n"` rather than the empty string — one line that corresponds
to no input value — so the sink is not "those values, one value per line". -/
theorem C7_counterexample :
    ((populate_queues ["a", "b"] [["x"]] 10000).2.getD 0 []).flatten =
      ([] : List String) ∧
    writer_thread ((populate_queues ["a", "b"] [["x"]] 10000).2.getD 0 []) =
      "\n" ∧
    linesConcat ([] : List String) = "" ∧ ("\n" : String) ≠ "" := by
  decide

/-- C6: a row whose width differs from the header width only adds its width
to the histogram: the per-column statistics (`fill_count`, `max_len`,
`min_len`, `sum_len` in both aggregators, the per-column value lists in the
splitter) are untouched, and the step functions are total — no exception is
raised.  Stated for the row loop of `read.read`, the line loop of
`multiread.read` and the row loop of `multisplit.populate_queues`. -/
theorem C6_malformed_row_frame :
    (∀ (C : ℕ) (s : WorkerResult) (row : List String), row.length ≠ C →
      readStep C s row = { s with counter := row.length ::ₘ s.counter }) ∧
    (∀ (C : ℕ) (acc : Multiset ℕ × List (List ℕ)) (line : String),
      (parse_line line).length ≠ C →
      workerStep C acc line = ((parse_line line).length ::ₘ acc.1, acc.2)) ∧
    (∀ (header : List String) (cols : List (List String)) (row : List String),
      row.length ≠ header.length → colStep header cols row = cols) := by
  refine ⟨fun C s row h => by simp [readStep, h],
    fun C acc line h => by simp [workerStep, h],
    fun header cols row h => by
      have hne : header.length ≠ row.length := fun hh => h hh.symm
      simp [colStep, hne]⟩

/-- Witness for C6 at a concrete malformed row: header width 2, row `["x"]`
of width 1. -/
theorem C6_malformed_row_frame_witness :
    readStep 2 (initStats 2) ["x"] =
      { initStats 2 with counter := (1 : ℕ) ::ₘ 0 } ∧
    workerStep 2 (0, [[], []]) "x" = ((1 : ℕ) ::ₘ 0, [[], []]) ∧
    colStep ["a", "b"] [[], []] ["x"] = [[], []] :=
  ⟨C6_malformed_row_frame.1 2 (initStats 2) ["x"] (by decide),
   C6_malformed_row_frame.2.1 2 (0, [[], []]) "x" (by decide),
   C6_malformed_row_frame.2.2 ["a", "b"] [[], []] ["x"] (by decide)⟩

/-- C9 (amended): `populate_queues` forwards EVERY column-batch produced by
partitioning a batch of rows — the empty ones included: for each batch
emitted by `make_batches`, exactly one item (that batch's value list for the
column, possibly `[]`) is enqueued on each column's queue. -/
theorem C9_amended (header : List String) (rows : List (List String))
    (size j : ℕ) (hj : j < header.length) :
    (populate_queues header rows size).2.getD j [] =
      (make_batches size rows).map
        (fun b => (batchColumns header b).getD j []) := by
  rw [populate_queues_spec, getD_range_map _ _ _ _ hj]

/-- Witness for C9 at the counterexample input: one all-malformed batch, one
(empty) column-batch enqueued. -/
theorem C9_amended_witness :
    (populate_queues ["a", "b"] [["x"]] 10000).2.getD 0 [] =
      (make_batches 10000 [["x"]]).map
        (fun b => (batchColumns ["a", "b"] b).getD 0 []) :=
  C9_amended ["a", "b"] [["x"]] 10000 0 (by decide)

/-- C10: `writer_thread` appends, for every non-sentinel queue item, the
batch's values joined by newlines followed by one trailing newline; and on
the input with header `a|b` and the single malformed row `x`,
`populate_queues` enqueues the empty column-batch `[]` for column 0, for
which the writer appends a single bare newline — a blank line corresponding
to no input value. -/
theorem C10_writer_blank_line :
    (∀ (batches : List (List String)) (b : List String),
      writer_thread (batches ++ [b]) =
        writer_thread batches ++ joinNl b ++ "\n") ∧
    (populate_queues ["a", "b"] [["x"]] 10000).2.getD 0 [] = [[]] ∧
    writer_thread [[]] = "\n" := by
  refine ⟨writer_thread_append_batch, by decide, by decide⟩

/-- C7 (amended): concatenating the column-batches emitted for column `j`
in emission order reproduces exactly the column-`j` values of the
matching-width rows in input order; and — provided every emitted
column-batch is non-empty — the writer's sink content is exactly those
values, one value per line, in that order.  (When a batch is empty the sink
additionally contains a bare newline, see the counterexample.) -/
theorem C7_amended (header : List String) (rows : List (List String))
    (size j : ℕ) (hj : j < header.length) :
    (((populate_queues header rows size).2.getD j []).flatten =
      columnValues header.length rows j) ∧
    ((∀ b ∈ (populate_queues header rows size).2.getD j [], b ≠ []) →
      writer_thread ((populate_queues header rows size).2.getD j []) =
        linesConcat (columnValues header.length rows j)) := by
  refine ⟨queue_flatten header rows size j hj, fun hb => ?_⟩
  rw [writer_thread_values _ hb, queue_flatten header rows size j hj]

/-- Witness for C7 on the toy data rows: column 0's queue carries one
non-empty batch `["1", "foobar"]` and the sink content is `"1\nfoobar\n"`. -/
theorem C7_amended_witness :
    ((((populate_queues ["a", "b"] [["1", ""], ["foobar", "baz"], ["x"]]
          10000).2.getD 0 []).flatten =
        columnValues 2 [["1", ""], ["foobar", "baz"], ["x"]] 0) ∧
      ((∀ b ∈ (populate_queues ["a", "b"] [["1", ""], ["foobar", "baz"], ["x"]]
            10000).2.getD 0 [], b ≠ []) →
        writer_thread ((populate_queues ["a", "b"]
            [["1", ""], ["foobar", "baz"], ["x"]] 10000).2.getD 0 []) =
          linesConcat (columnValues 2 [["1", ""], ["foobar", "baz"], ["x"]] 0))) ∧
    writer_thread ((populate_queues ["a", "b"]
        [["1", ""], ["foobar", "baz"], ["x"]] 10000).2.getD 0 []) =
      "1\nfoobar\n" := by
  refine ⟨C7_amended ["a", "b"] [["1", ""], ["foobar", "baz"], ["x"]] 10000 0
    (by decide), ?_⟩
  rw [(C7_amended ["a", "b"] [["1", ""], ["foobar", "baz"], ["x"]] 10000 0
    (by decide)).2 (by decide)]
  decide

/-- C8: for every input, the histogram's total mass equals the number of data
rows read (malformed rows included), and the histogram entry at the header
width equals the number of matching-width rows — the rows that feed the
column statistics (for the aggregators) or the column batches (for the
splitter, where the flattened column-`j` queue contents have exactly that
many values).  Stated for `read.read`, a `multiread` worker, and
`multisplit.populate_queues`. -/
theorem C8_histogram_completeness (header : List String)
    (rows : List (List String)) (lines : List String) (size j : ℕ)
    (hj : j < header.length) :
    (Multiset.card (readFold header.length rows).counter = rows.length ∧
      Multiset.count header.length (readFold header.length rows).counter =
        (matchingRows header.length rows).length) ∧
    (Multiset.card (workerFold header lines).1 = lines.length ∧
      Multiset.count header.length (workerFold header lines).1 =
        (matchingRows header.length (lines.map parse_line)).length) ∧
    (Multiset.card (populate_queues header rows size).1 = rows.length ∧
      ((populate_queues header rows size).2.getD j []).flatten.length =
        Multiset.count header.length (populate_queues header rows size).1) := by
  have hread : (readFold header.length rows).counter =
      ↑(rows.map List.length) := by
    rw [readFold, readFold_spec _ _ _ (by simp [initStats])
      (by simp [initStats]) (by simp [initStats]) (by simp [initStats])]
    simp [initStats]
  have hworker : (workerFold header lines).1 =
      ↑((lines.map parse_line).map List.length) := by
    rw [workerFold_spec]
  have hpop : (populate_queues header rows size).1 =
      ↑(rows.map List.length) := by
    rw [populate_queues_spec]
  refine ⟨⟨?_, ?_⟩, ⟨?_, ?_⟩, ⟨?_, ?_⟩⟩
  · rw [hread]; simp
  · rw [hread, count_widths]
  · rw [hworker]; simp
  · rw [hworker, count_widths]
  · rw [hpop]; simp
  · rw [hpop, count_widths, queue_flatten _ _ _ _ hj]
    simp [columnValues]

/-- Witness for C8 at a concrete input: header of width 1, one malformed row
for the row-based paths, one matching line for the worker path. -/
theorem C8_histogram_completeness_witness :
    ((Multiset.card (readFold (["a"] : List String).length [["x", "y"]]).counter =
        ([["x", "y"]] : List (List String)).length ∧
      Multiset.count (["a"] : List String).length
          (readFold (["a"] : List String).length [["x", "y"]]).counter =
        (matchingRows (["a"] : List String).length [["x", "y"]]).length) ∧
    (Multiset.card (workerFold ["a"] ["y"]).1 = (["y"] : List String).length ∧
      Multiset.count (["a"] : List String).length (workerFold ["a"] ["y"]).1 =
        (matchingRows (["a"] : List String).length
          ((["y"] : List String).map parse_line)).length) ∧
    (Multiset.card (populate_queues ["a"] [["x", "y"]] 3).1 =
        ([["x", "y"]] : List (List String)).length ∧
      ((populate_queues ["a"] [["x", "y"]] 3).2.getD 0 []).flatten.length =
        Multiset.count (["a"] : List String).length
          (populate_queues ["a"] [["x", "y"]] 3).1)) :=
  C8_histogram_completeness ["a"] [["x", "y"]] ["y"] 3 0 (by decide)

/-- C1 (amended): the derived average length of column `j` is `sum_len[j]`
divided by the TOTAL row count — the sum of all histogram entries, malformed
rows included — not by the histogram entry at the header width.  Stated for
the sequential aggregator (`read.read`, divisor = number of data rows) and
for the collator (`multiread.collate`, divisor = total mass of the merged
histogram). -/
theorem C1_amended (header : List String) (rows : List (List String))
    (results : List WorkerResult) (j : ℕ) (hj : j < header.length) :
    (rows ≠ [] →
      (readAggregate (header :: rows)).map (fun a => a.avg_len.getD j 0) =
        some (((mLens header.length rows j).sum : ℚ) / (rows.length : ℚ))) ∧
    (Multiset.card (collateAcc header results).counter ≠ 0 →
      (collate header results).map (fun a => a.avg_len.getD j 0) =
        some (((collateAcc header results).sum_len.getD j 0 : ℚ) /
          (Multiset.card (collateAcc header results).counter : ℚ))) := by
  constructor
  · intro hne
    have hfold := readFold_spec header.length rows (initStats header.length)
      (by simp [initStats]) (by simp [initStats]) (by simp [initStats])
      (by simp [initStats])
    have hcard : Multiset.card (readFold header.length rows).counter =
        rows.length := by
      rw [readFold, hfold]; simp [initStats]
    have hlen : rows.length ≠ 0 := by simpa [List.length_eq_zero] using hne
    have hsum : (readFold header.length rows).sum_len.getD j 0 =
        (mLens header.length rows j).sum := by
      rw [readFold, hfold]
      show ((List.range _).map _).getD j 0 = _
      rw [getD_range_map _ _ _ _ hj,
        show (initStats header.length).sum_len.getD j 0 = 0 by
          simp [initStats],
        foldl_add_eq]
      simp
    have hslen : j < (readFold header.length rows).sum_len.length := by
      rw [readFold, hfold]; simpa using hj
    rw [readAggregate_eval header rows _ rfl (by rw [hcard]; exact hlen)]
    simp only [Option.map_some']
    congr 1
    rw [getD_map _ _ _ 0 _ hslen, hsum, hcard]
  · intro hcard
    have hslen : j < (collateAcc header results).sum_len.length := by
      rw [collateAcc, collateAccAux _ _ _ (by simp [initStats])
        (by simp [initStats]) (by simp [initStats]) (by simp [initStats])]
      simpa using hj
    rw [collate_eval header results _ rfl hcard]
    simp only [Option.map_some']
    congr 1
    rw [getD_map _ _ _ 0 _ hslen]

/-- Witness for C1 (amended) at the toy data: `avg_len[0] = 7/3` with
divisor 3 (total row count). -/
theorem C1_amended_witness :
    (readAggregate (["a", "b"] :: [["1", ""], ["foobar", "baz"], ["x"]])).map
        (fun a => a.avg_len.getD 0 0) =
      some (((mLens 2 [["1", ""], ["foobar", "baz"], ["x"]] 0).sum : ℚ) /
        (([["1", ""], ["foobar", "baz"], ["x"]] : List (List String)).length : ℚ)) ∧
    (collate ["a", "b"] [⟨{2, 2, 1}, [2, 1], [6, 3], [1, 0], [7, 3]⟩]).map
        (fun a => a.avg_len.getD 0 0) =
      some (((collateAcc ["a", "b"]
          [⟨{2, 2, 1}, [2, 1], [6, 3], [1, 0], [7, 3]⟩]).sum_len.getD 0 0 : ℚ) /
        (Multiset.card (collateAcc ["a", "b"]
          [⟨{2, 2, 1}, [2, 1], [6, 3], [1, 0], [7, 3]⟩]).counter : ℚ)) :=
  ⟨(C1_amended ["a", "b"] [["1", ""], ["foobar", "baz"], ["x"]]
      [⟨{2, 2, 1}, [2, 1], [6, 3], [1, 0], [7, 3]⟩] 0 (by decide)).1 (by decide),
   (C1_amended ["a", "b"] [["1", ""], ["foobar", "baz"], ["x"]]
      [⟨{2, 2, 1}, [2, 1], [6, 3], [1, 0], [7, 3]⟩] 0 (by decide)).2 (by decide)⟩

theorem mergeResults_comm (C : ℕ) (a b : WorkerResult) :
    mergeResults C a b = mergeResults C b a := by
  refine WorkerResult.mk.injEq .. |>.mpr ⟨add_comm _ _, ?_, ?_, ?_, ?_⟩
  all_goals
    refine List.map_congr_left (fun i _ => ?_)
    first
      | exact add_comm _ _
      | exact max_comm _ _
      | exact min_comm _ _

theorem mergeResults_assoc (C : ℕ) (a b c : WorkerResult) :
    mergeResults C (mergeResults C a b) c =
      mergeResults C a (mergeResults C b c) := by
  refine WorkerResult.mk.injEq .. |>.mpr ⟨add_assoc _ _ _, ?_, ?_, ?_, ?_⟩
  · refine List.map_congr_left (fun i hi => ?_)
    rw [List.mem_range] at hi
    rw [show (mergeResults C a b).fill_count.getD i 0 =
        a.fill_count.getD i 0 + b.fill_count.getD i 0 from
        getD_range_map _ C i 0 hi,
      show (mergeResults C b c).fill_count.getD i 0 =
        b.fill_count.getD i 0 + c.fill_count.getD i 0 from
        getD_range_map _ C i 0 hi, add_assoc]
  · refine List.map_congr_left (fun i hi => ?_)
    rw [List.mem_range] at hi
    rw [show (mergeResults C a b).max_len.getD i 0 =
        max (a.max_len.getD i 0) (b.max_len.getD i 0) from
        getD_range_map _ C i 0 hi,
      show (mergeResults C b c).max_len.getD i 0 =
        max (b.max_len.getD i 0) (c.max_len.getD i 0) from
        getD_range_map _ C i 0 hi, max_assoc]
  · refine List.map_congr_left (fun i hi => ?_)
    rw [List.mem_range] at hi
    rw [show (mergeResults C a b).min_len.getD i 0 =
        min (a.min_len.getD i 0) (b.min_len.getD i 0) from
        getD_range_map _ C i 0 hi,
      show (mergeResults C b c).min_len.getD i 0 =
        min (b.min_len.getD i 0) (c.min_len.getD i 0) from
        getD_range_map _ C i 0 hi, min_assoc]
  · refine List.map_congr_left (fun i hi => ?_)
    rw [List.mem_range] at hi
    rw [show (mergeResults C a b).sum_len.getD i 0 =
        a.sum_len.getD i 0 + b.sum_len.getD i 0 from
        getD_range_map _ C i 0 hi,
      show (mergeResults C b c).sum_len.getD i 0 =
        b.sum_len.getD i 0 + c.sum_len.getD i 0 from
        getD_range_map _ C i 0 hi, add_assoc]

/-- C3: the merge performed by `multiread.collate` is commutative and
associative, and in consequence collating any permutation of the partial
results — any order, and by associativity any grouping — yields the same
`AggregateResult`. -/
theorem C3_merge_comm_assoc (header : List String) :
    (∀ a b : WorkerResult,
      mergeResults header.length a b = mergeResults header.length b a) ∧
    (∀ a b c : WorkerResult,
      mergeResults header.length (mergeResults header.length a b) c =
        mergeResults header.length a (mergeResults header.length b c)) ∧
    (∀ rs1 rs2 : List WorkerResult, rs1.Perm rs2 →
      collate header rs1 = collate header rs2) := by
  refine ⟨mergeResults_comm header.length, mergeResults_assoc header.length,
    fun rs1 rs2 p => ?_⟩
  refine collate_congr header rs1 rs2 ?_
  rw [collateAcc, collateAcc]
  refine p.foldl_eq' (fun x _ y _ z => ?_) (initStats header.length)
  rw [mergeResults_assoc, mergeResults_comm header.length x y,
    ← mergeResults_assoc]

/-- Witness for C3: two concrete partial results collated in both orders. -/
theorem C3_merge_comm_assoc_witness :
    collate ["a", "b"]
        [⟨{2}, [1, 0], [3, 0], [3, 4], [3, 0]⟩,
         ⟨{2, 1}, [1, 1], [5, 2], [5, 2], [5, 2]⟩] =
      collate ["a", "b"]
        [⟨{2, 1}, [1, 1], [5, 2], [5, 2], [5, 2]⟩,
         ⟨{2}, [1, 0], [3, 0], [3, 4], [3, 0]⟩] :=
  (C3_merge_comm_assoc ["a", "b"]).2.2
    [⟨{2}, [1, 0], [3, 0], [3, 4], [3, 0]⟩,
     ⟨{2, 1}, [1, 1], [5, 2], [5, 2], [5, 2]⟩]
    [⟨{2, 1}, [1, 1], [5, 2], [5, 2], [5, 2]⟩,
     ⟨{2}, [1, 0], [3, 0], [3, 4], [3, 0]⟩]
    (List.Perm.swap _ _ _)

theorem workerRead_eq_specPartial (header : List String) (lines : List String)
    (hne : matchingRows header.length (lines.map parse_line) ≠ [])
    (hh : header ≠ []) :
    workerRead header lines = some (specPartial header lines) :=
  workerRead_spec header lines hne hh

theorem sum_coe_multiset (g : List String → List ℕ)
    (ls : List (List String)) :
    ((ls.map (fun l => ((g l : List ℕ) : Multiset ℕ))).sum : Multiset ℕ) =
      ↑((ls.map g).flatten) := by
  induction ls with
  | nil => simp
  | cons l rest ih => simp [ih]

theorem getD_replicate (C j d e : ℕ) (hj : j < C) :
    (List.replicate C d).getD j e = d := by
  rw [List.getD_eq_getElem _ _ (by simpa using hj), List.getElem_replicate]

theorem parts_flatten_lens (header : List String)
    (parts : List (List String)) (j : ℕ) :
    (parts.map (fun part =>
      mLens header.length (part.map parse_line) j)).flatten =
      mLens header.length (parts.flatten.map parse_line) j := by
  have h1 : parts.map (fun part =>
      mLens header.length (part.map parse_line) j) =
      (parts.map (List.map parse_line)).map
        (fun rows => mLens header.length rows j) := by
    rw [List.map_map]; rfl
  have h2 : (parts.map (List.map parse_line)).flatten =
      parts.flatten.map parse_line := by
    simp [List.map_flatten]
  rw [h1, ← mLens_flatten, h2]

/-- C4 (amended): the single-worker path of `multiread.read_stream` is
exactly `runWorkers` with one worker holding all data lines; and for every
distribution of the data lines over `N ≥ 1` workers in which EVERY worker
receives at least one line of matching width, collating the worker partials
yields the same `AggregateResult` as the single-worker run.  (If some worker
receives no matching-width line its finalization raises `ValueError`, see
the counterexample.) -/
theorem C4_amended :
    (∀ (hline : String) (rest : List String),
      read_stream (hline :: rest) = runWorkers (parse_line hline) [rest]) ∧
    (∀ (header : List String) (lines : List String)
      (parts : List (List String)),
      parts ≠ [] →
      parts.flatten.Perm lines →
      (∀ part ∈ parts, ∃ line ∈ part, (parse_line line).length = header.length) →
      runWorkers header parts = runWorkers header [lines]) := by
  constructor
  · intro hline rest
    unfold read_stream runWorkers
    simp only [List.headD_cons, List.tail_cons]
    cases h : workerRead (parse_line hline) rest with
    | none => simp [optionMapList, h]
    | some p => simp [optionMapList, h]
  · intro header lines parts hne hperm hmatch
    obtain ⟨part0, hp0⟩ := List.exists_mem_of_ne_nil parts hne
    have hh : header ≠ [] := header_ne_nil_of_matching (hmatch part0 hp0)
    have hwne : matchingRows header.length (lines.map parse_line) ≠ [] := by
      obtain ⟨line0, hl0, hlen0⟩ := hmatch part0 hp0
      exact matchingRows_map_parse_ne_nil
        ⟨line0, hperm.mem_iff.mp (List.mem_flatten.mpr ⟨part0, hp0, hl0⟩), hlen0⟩
    have hpartsome : ∀ part ∈ parts,
        workerRead header part = some (specPartial header part) :=
      fun part hp => workerRead_eq_specPartial header part
        (matchingRows_map_parse_ne_nil (hmatch part hp)) hh
    unfold runWorkers
    rw [optionMapList_eq_some (workerRead header) (specPartial header) parts
        hpartsome,
      optionMapList_eq_some (workerRead header) (specPartial header) [lines]
        (fun x hx => by
          rw [List.mem_singleton] at hx
          rw [hx]
          exact workerRead_eq_specPartial header lines hwne hh)]
    show collate header (parts.map (specPartial header)) =
      collate header ([lines].map (specPartial header))
    rw [List.map_singleton]
    apply collate_congr
    rw [collateAcc, collateAcc,
      collateAccAux _ _ _ (by simp [initStats]) (by simp [initStats])
        (by simp [initStats]) (by simp [initStats]),
      collateAccAux _ _ _ (by simp [initStats]) (by simp [initStats])
        (by simp [initStats]) (by simp [initStats])]
    have hRne : ∀ (j : ℕ) (l : List ℕ),
        l ∈ parts.map (fun part =>
          mLens header.length (part.map parse_line) j) → l ≠ [] := by
      intro j l hl
      rw [List.mem_map] at hl
      obtain ⟨part, hp, rfl⟩ := hl
      intro hcon
      apply matchingRows_map_parse_ne_nil (hmatch part hp)
      have hlen := congrArg List.length hcon
      rw [mLens_length] at hlen
      exact List.length_eq_zero.mp hlen
    have hWne : ∀ j : ℕ, mLens header.length (lines.map parse_line) j ≠ [] := by
      intro j hcon
      apply hwne
      have hlen := congrArg List.length hcon
      rw [mLens_length] at hlen
      exact List.length_eq_zero.mp hlen
    have hpermj : ∀ j : ℕ,
        (parts.map (fun part =>
          mLens header.length (part.map parse_line) j)).flatten.Perm
          (mLens header.length (lines.map parse_line) j) := by
      intro j
      rw [parts_flatten_lens]
      exact mLens_perm _ _ (hperm.map parse_line)
    refine WorkerResult.mk.injEq .. |>.mpr ⟨?_, ?_, ?_, ?_, ?_⟩
    · congr 1
      rw [List.map_map, List.map_singleton,
        show (WorkerResult.counter ∘ specPartial header) = fun part =>
          (((part.map parse_line).map List.length : List ℕ) : Multiset ℕ)
          from rfl,
        sum_coe_multiset (fun part => (part.map parse_line).map List.length),
        show WorkerResult.counter (specPartial header lines) =
          ↑((lines.map parse_line).map List.length) from rfl,
        List.sum_cons, List.sum_nil, add_zero, Multiset.coe_eq_coe]
      have h1 : (parts.map (fun part =>
          (part.map parse_line).map List.length)).flatten =
          (parts.flatten.map parse_line).map List.length := by
        rw [show parts.map (fun part => (part.map parse_line).map List.length) =
            (parts.map (List.map parse_line)).map (List.map List.length) by
            rw [List.map_map]; rfl]
        rw [← List.map_flatten, ← List.map_flatten]
      rw [h1]
      exact (hperm.map parse_line).map List.length
    all_goals
      refine List.map_congr_left (fun j hj => ?_)
      rw [List.mem_range] at hj
    · -- fill_count
      rw [List.map_map,
        List.map_congr_left (fun part _ =>
          show ((fun p : WorkerResult => p.fill_count.getD j 0) ∘
            specPartial header) part =
            (mLens header.length (part.map parse_line) j).countP
              (fun x => decide (0 < x)) from getD_range_map _ _ _ _ hj),
        List.map_singleton,
        show (specPartial header lines).fill_count.getD j 0 =
          (mLens header.length (lines.map parse_line) j).countP
            (fun x => decide (0 < x)) from getD_range_map _ _ _ _ hj,
        show (initStats header.length).fill_count.getD j 0 = 0 from
          getD_replicate _ _ _ _ hj,
        foldl_add_eq, foldl_add_eq, List.sum_cons, List.sum_nil, add_zero]
      congr 1
      rw [show parts.map (fun part =>
          (mLens header.length (part.map parse_line) j).countP
            (fun x => decide (0 < x))) =
          (parts.map (fun part =>
            mLens header.length (part.map parse_line) j)).map
            (fun l => l.countP (fun x => decide (0 < x))) by
          rw [List.map_map]; rfl,
        ← countP_flatten]
      exact (hpermj j).countP_eq _
    · -- max_len
      rw [List.map_map,
        List.map_congr_left (fun part _ =>
          show ((fun p : WorkerResult => p.max_len.getD j 0) ∘
            specPartial header) part =
            pymax (mLens header.length (part.map parse_line) j) from
            getD_range_map _ _ _ _ hj),
        List.map_singleton,
        show (specPartial header lines).max_len.getD j 0 =
          pymax (mLens header.length (lines.map parse_line) j) from
          getD_range_map _ _ _ _ hj,
        show (initStats header.length).max_len.getD j 0 = 0 from
          getD_replicate _ _ _ _ hj]
      rw [show parts.map (fun part =>
          pymax (mLens header.length (part.map parse_line) j)) =
          (parts.map (fun part =>
            mLens header.length (part.map parse_line) j)).map pymax by
          rw [List.map_map]; rfl]
      rw [foldl_max_flatten _ (hRne j), foldl_max_perm (hpermj j),
        List.foldl_cons, List.foldl_nil, foldl_max_eq, if_neg (hWne j)]
    · -- min_len
      rw [List.map_map,
        List.map_congr_left (fun part _ =>
          show ((fun p : WorkerResult => p.min_len.getD j 0) ∘
            specPartial header) part =
            pymin (mLens header.length (part.map parse_line) j) from
            getD_range_map _ _ _ _ hj),
        List.map_singleton,
        show (specPartial header lines).min_len.getD j 0 =
          pymin (mLens header.length (lines.map parse_line) j) from
          getD_range_map _ _ _ _ hj,
        show (initStats header.length).min_len.getD j 0 = maxint from
          getD_replicate _ _ _ _ hj]
      rw [show parts.map (fun part =>
          pymin (mLens header.length (part.map parse_line) j)) =
          (parts.map (fun part =>
            mLens header.length (part.map parse_line) j)).map pymin by
          rw [List.map_map]; rfl]
      rw [foldl_min_flatten _ (hRne j), foldl_min_perm (hpermj j),
        List.foldl_cons, List.foldl_nil, foldl_min_eq, if_neg (hWne j)]
    · -- sum_len
      rw [List.map_map,
        List.map_congr_left (fun part _ =>
          show ((fun p : WorkerResult => p.sum_len.getD j 0) ∘
            specPartial header) part =
            (mLens header.length (part.map parse_line) j).sum from
            getD_range_map _ _ _ _ hj),
        List.map_singleton,
        show (specPartial header lines).sum_len.getD j 0 =
          (mLens header.length (lines.map parse_line) j).sum from
          getD_range_map _ _ _ _ hj,
        show (initStats header.length).sum_len.getD j 0 = 0 from
          getD_replicate _ _ _ _ hj,
        foldl_add_eq, foldl_add_eq, List.sum_cons, List.sum_nil, add_zero]
      congr 1
      rw [show List.sum (parts.map (fun part =>
          (mLens header.length (part.map parse_line) j).sum)) =
          (parts.map (fun part =>
            mLens header.length (part.map parse_line) j)).flatten.sum by
          rw [List.sum_flatten, List.map_map]; rfl]
      exact (hpermj j).sum_eq


/-- Witness for C4 (amended): two data lines distributed over two workers,
each receiving one matching line, versus the single-worker run; plus the
single-worker path of `read_stream` on the same stream. -/
theorem C4_amended_witness :
    read_stream ("a|b\n" :: ["1|2\n", "3|4\n"]) =
      runWorkers (parse_line "a|b\n") [["1|2\n", "3|4\n"]] ∧
    runWorkers ["a", "b"] [["1|2\n"], ["3|4\n"]] =
      runWorkers ["a", "b"] [["1|2\n", "3|4\n"]] :=
  ⟨C4_amended.1 "a|b\n" ["1|2\n", "3|4\n"],
   C4_amended.2 ["a", "b"] ["1|2\n", "3|4\n"] [["1|2\n"], ["3|4\n"]]
     (by decide) (by decide) (by decide)⟩

end Bigcsv
